import Mathlib

/-
Verification development for the Pico 2W A2DP audio receiver's real-time
audio path.

Shallow embedding conventions:
* C `int16_t` samples are modelled as `ℤ`; the operations themselves keep
  the values in the 16-bit range (clipping / casts are modelled explicitly).
* C `float` values are modelled as `ℚ`.  All float operations appearing in
  the embedded code are comparisons, additions, multiplications and
  divisions, which are exact over `ℚ`; `(int…)` casts of floats are
  modelled as truncation toward zero, as C prescribes for in-range values.
* C `uint8_t`/`uint32_t` counters and indices are modelled as `ℕ`; where a
  wrap-around of unsigned subtraction is reachable it is modelled
  explicitly (`u32_sub`).
* Stereo frames (`int16_t` pairs at slots `2*i`, `2*i+1` of an interleaved
  array) are modelled as `ℤ × ℤ` at slot `i`; buffers are functions from
  slot numbers.
* Fallible pointer arguments are modelled as `Option`: `none` is the NULL
  pointer.
* The I2S output stage (`audio_out_i2s.c`) has its ring-buffer capacity
  `I2S_BUFFER_SIZE / 2 = AUDIO_BUFFER_SIZE` as a compile-time constant; the
  embedding is parametric in this capacity `cap`, exactly as the code is
  parametric in the macro.
-/

namespace I2S

/-- `I2S_DMA_BUFFER_SIZE` from `audio_out_i2s.c`. -/
def I2S_DMA_BUFFER_SIZE : ℕ := 512

/-- The mutable module state of `audio_out_i2s.c`: the interleaved stereo
ring buffer (one `ℤ × ℤ` frame per slot), its indices and fill counter, the
underrun/overrun statistics, the running flag, and the two DMA ping-pong
buffers of packed 32-bit words. -/
structure State where
  ring : ℕ → ℤ × ℤ
  writePos : ℕ
  readPos : ℕ
  buffered : ℕ
  underruns : ℕ
  overruns : ℕ
  running : Bool
  dma0 : List ℕ
  dma1 : List ℕ
  currentDma : ℕ

/-- `(uint16_t)x` for an `int16_t` value: the low 16 bits. -/
def toUInt16 (x : ℤ) : ℕ := (x % 65536).toNat

/-- `((uint32_t)(uint16_t)left << 16) | (uint16_t)right` — one stereo frame
packed into a 32-bit hardware word (left in bits 31–16, right in 15–0). -/
def pack_frame (f : ℤ × ℤ) : ℕ := toUInt16 f.1 * 65536 + toUInt16 f.2

/-- `fill_dma_buffer`: for each of `n` output slots, pop the oldest ring
buffer frame if one is buffered, otherwise emit a silence word and count an
underrun.  Returns the produced word list (the filled DMA buffer) together
with the updated module state. -/
def fill_dma_buffer (cap : ℕ) : ℕ → State → List ℕ × State
  | 0, st => ([], st)
  | n + 1, st =>
    if st.buffered > 0 then
      let w := pack_frame (st.ring st.readPos)
      let r := fill_dma_buffer cap n
        { st with readPos := (st.readPos + 1) % cap, buffered := st.buffered - 1 }
      (w :: r.1, r.2)
    else
      let r := fill_dma_buffer cap n { st with underruns := st.underruns + 1 }
      (0 :: r.1, r.2)

/-- The write loop of `audio_out_i2s_write`: frames are appended at
`writePos` one by one; if the buffer is full the loop counts a single
overrun and breaks.  Returns `samples_written` and the new state. -/
def ringWrite (cap : ℕ) : List (ℤ × ℤ) → State → ℕ × State
  | [], st => (0, st)
  | f :: fs, st =>
    if cap - st.buffered = 0 then
      (0, { st with overruns := st.overruns + 1 })
    else
      let r := ringWrite cap fs
        { st with
          ring := fun j => if j = st.writePos then f else st.ring j
          writePos := (st.writePos + 1) % cap
          buffered := st.buffered + 1 }
      (r.1 + 1, r.2)

/-- `audio_out_i2s_start`: a no-op when already running; otherwise pre-fill
both DMA buffers from the ring buffer, select buffer 0 and set running. -/
def audio_out_i2s_start (cap : ℕ) (st : State) : State :=
  if st.running then st
  else
    let r0 := fill_dma_buffer cap I2S_DMA_BUFFER_SIZE st
    let r1 := fill_dma_buffer cap I2S_DMA_BUFFER_SIZE r0.2
    { r1.2 with dma0 := r0.1, dma1 := r1.1, currentDma := 0, running := true }

/-- `AUTO_START_THRESHOLD` (10 % of the ring capacity). -/
def AUTO_START_THRESHOLD (cap : ℕ) : ℕ := cap / 10

/-- `audio_out_i2s_write`: run the write loop, then auto-start the output
once the fill level crosses the threshold while not yet running. -/
def audio_out_i2s_write (cap : ℕ) (frames : List (ℤ × ℤ)) (st : State) : ℕ × State :=
  let r := ringWrite cap frames st
  let st2 :=
    if st.running = false ∧ AUTO_START_THRESHOLD cap ≤ r.2.buffered then
      audio_out_i2s_start cap r.2
    else r.2
  (r.1, st2)

/-- `audio_out_i2s_stop`: a no-op when already stopped; otherwise clears the
running flag (the DMA/PIO aborts have no further observable state here). -/
def audio_out_i2s_stop (st : State) : State :=
  if st.running = false then st else { st with running := false }

/-- `audio_out_i2s_clear_buffer`: reset indices, fill count and both
statistics counters, and zero-fill the ring and DMA buffers. -/
def audio_out_i2s_clear_buffer (st : State) : State :=
  { st with
    writePos := 0, readPos := 0, buffered := 0, underruns := 0, overruns := 0
    ring := fun _ => (0, 0)
    dma0 := List.replicate I2S_DMA_BUFFER_SIZE 0
    dma1 := List.replicate I2S_DMA_BUFFER_SIZE 0 }

/-- The body of `dma_handler` on an acknowledged interrupt: hand the other
(already filled) buffer to the hardware, refill the buffer that just
finished, and record the new active index. -/
def dma_handler (cap : ℕ) (st : State) : State :=
  let finished := st.currentDma
  let next := 1 - st.currentDma
  let r := fill_dma_buffer cap I2S_DMA_BUFFER_SIZE st
  let st2 := if finished = 0 then { r.2 with dma0 := r.1 } else { r.2 with dma1 := r.1 }
  { st2 with currentDma := next }

/-- Selects a DMA buffer by index (0 selects `dma_buffer[0]`). -/
def dmaBuf (st : State) (i : ℕ) : List ℕ := if i = 0 then st.dma0 else st.dma1

/-- The operations of the output stage, for stating properties of operation
sequences. -/
inductive Op where
  | write (frames : List (ℤ × ℤ))
  | fill (n : ℕ)
  | start
  | stop
  | clear
  | handler

/-- One operation applied to the module state. -/
def step (cap : ℕ) : Op → State → State
  | .write fs, st => (audio_out_i2s_write cap fs st).2
  | .fill n, st => (fill_dma_buffer cap n st).2
  | .start, st => audio_out_i2s_start cap st
  | .stop, st => audio_out_i2s_stop st
  | .clear, st => audio_out_i2s_clear_buffer st
  | .handler, st => dma_handler cap st

/-- A sequence of operations applied left to right. -/
def run (cap : ℕ) : List Op → State → State
  | [], st => st
  | op :: ops, st => run cap ops (step cap op st)

end I2S

namespace I2S

/-- The state after popping one frame in `fill_dma_buffer`. -/
def popState (cap : ℕ) (st : State) : State :=
  { st with readPos := (st.readPos + 1) % cap, buffered := st.buffered - 1 }

/-- The state after emitting one silence word in `fill_dma_buffer`. -/
def silenceState (st : State) : State :=
  { st with underruns := st.underruns + 1 }

theorem fill_dma_buffer_pop (cap n : ℕ) (st : State) (hb : 0 < st.buffered) :
    fill_dma_buffer cap (n + 1) st =
      (pack_frame (st.ring st.readPos) :: (fill_dma_buffer cap n (popState cap st)).1,
        (fill_dma_buffer cap n (popState cap st)).2) := by
  simp [fill_dma_buffer, hb, popState]

theorem fill_dma_buffer_silence (cap n : ℕ) (st : State) (hb : st.buffered = 0) :
    fill_dma_buffer cap (n + 1) st =
      (0 :: (fill_dma_buffer cap n (silenceState st)).1,
        (fill_dma_buffer cap n (silenceState st)).2) := by
  simp [fill_dma_buffer, hb, silenceState]

theorem fill_dma_buffer_pop_snd (cap n : ℕ) (st : State) (hb : 0 < st.buffered) :
    (fill_dma_buffer cap (n + 1) st).2 = (fill_dma_buffer cap n (popState cap st)).2 := by
  rw [fill_dma_buffer_pop cap n st hb]

theorem fill_dma_buffer_silence_snd (cap n : ℕ) (st : State) (hb : st.buffered = 0) :
    (fill_dma_buffer cap (n + 1) st).2 = (fill_dma_buffer cap n (silenceState st)).2 := by
  rw [fill_dma_buffer_silence cap n st hb]

/-- Full behavioural description of `fill_dma_buffer` on a well-formed read
index: the produced word list has exactly the requested length, its `i`-th
word is the packed frame popped FIFO from slot `readPos + i` while data
lasts and a silence word afterwards, the fill count drops by the number of
slots served, the underrun counter grows by the number of silence words,
and nothing else changes. -/
theorem fill_dma_buffer_spec (cap : ℕ) :
    ∀ (n : ℕ) (st : State), st.readPos < cap →
      (fill_dma_buffer cap n st).1.length = n ∧
      (∀ i, i < n →
        (fill_dma_buffer cap n st).1.getD i 0 =
          if i < st.buffered then pack_frame (st.ring ((st.readPos + i) % cap)) else 0) ∧
      (fill_dma_buffer cap n st).2.buffered = st.buffered - n ∧
      (fill_dma_buffer cap n st).2.underruns = st.underruns + (n - st.buffered) ∧
      (fill_dma_buffer cap n st).2.ring = st.ring ∧
      (fill_dma_buffer cap n st).2.writePos = st.writePos ∧
      (fill_dma_buffer cap n st).2.overruns = st.overruns ∧
      (fill_dma_buffer cap n st).2.running = st.running ∧
      (fill_dma_buffer cap n st).2.readPos < cap := by
  intro n
  induction n with
  | zero =>
    intro st h
    refine ⟨rfl, fun i hi => absurd hi (by omega), ?_, ?_, rfl, rfl, rfl, rfl, h⟩
    · simp [fill_dma_buffer]
    · simp [fill_dma_buffer]
  | succ n ih =>
    intro st h
    have hcap : 0 < cap := lt_of_le_of_lt (Nat.zero_le _) h
    by_cases hb : 0 < st.buffered
    · have hr' : (popState cap st).readPos < cap := Nat.mod_lt _ hcap
      obtain ⟨ihlen, ihget, ihbuf, ihund, ihring, ihwp, ihov, ihrun, ihrp⟩ := ih _ hr'
      rw [fill_dma_buffer_pop cap n st hb]
      have hbuf' : (popState cap st).buffered = st.buffered - 1 := rfl
      have hund' : (popState cap st).underruns = st.underruns := rfl
      refine ⟨by simpa using ihlen, ?_, ?_, ?_, ihring, ihwp, ihov, ihrun, ihrp⟩
      · intro i hi
        match i with
        | 0 =>
          simp [hb, Nat.mod_eq_of_lt h]
        | i + 1 =>
          have hres := ihget i (by omega)
          simp only [List.getD_cons_succ]
          rw [hres, hbuf']
          by_cases hib : i < st.buffered - 1
          · rw [if_pos hib, if_pos (by omega)]
            have hidx : ((popState cap st).readPos + i) % cap = (st.readPos + (i + 1)) % cap := by
              show ((st.readPos + 1) % cap + i) % cap = _
              rw [Nat.mod_add_mod]
              ring_nf
            rw [hidx]
            rfl
          · rw [if_neg hib, if_neg (by omega)]
      · rw [ihbuf, hbuf']; omega
      · rw [ihund, hund', hbuf']; omega
    · have hb0 : st.buffered = 0 := by omega
      have hrs : (silenceState st).readPos < cap := h
      obtain ⟨ihlen, ihget, ihbuf, ihund, ihring, ihwp, ihov, ihrun, ihrp⟩ := ih _ hrs
      rw [fill_dma_buffer_silence cap n st hb0]
      have hbuf' : (silenceState st).buffered = st.buffered := rfl
      have hund' : (silenceState st).underruns = st.underruns + 1 := rfl
      refine ⟨by simpa using ihlen, ?_, ?_, ?_, ihring, ihwp, ihov, ihrun, ihrp⟩
      · intro i hi
        match i with
        | 0 => simp [hb0]
        | i + 1 =>
          have hres := ihget i (by omega)
          simp only [List.getD_cons_succ]
          rw [hres, hbuf']
          simp [hb0]
      · rw [ihbuf, hbuf', hb0]; omega
      · rw [ihund, hund', hbuf', hb0]; omega

/-- `fill_dma_buffer` never increases the fill count, never decreases the
underrun counter, and leaves the overrun counter, running flag and ring
contents untouched — with no well-formedness assumptions. -/
theorem fill_dma_buffer_mono (cap : ℕ) :
    ∀ (n : ℕ) (st : State),
      (fill_dma_buffer cap n st).2.buffered ≤ st.buffered ∧
      st.underruns ≤ (fill_dma_buffer cap n st).2.underruns ∧
      (fill_dma_buffer cap n st).2.overruns = st.overruns ∧
      (fill_dma_buffer cap n st).2.running = st.running ∧
      (fill_dma_buffer cap n st).2.ring = st.ring := by
  intro n
  induction n with
  | zero => intro st; exact ⟨le_refl _, le_refl _, rfl, rfl, rfl⟩
  | succ n ih =>
    intro st
    by_cases hb : 0 < st.buffered
    · obtain ⟨h1, h2, h3, h4, h5⟩ := ih (popState cap st)
      rw [fill_dma_buffer_pop_snd cap n st hb]
      have e1 : (popState cap st).buffered = st.buffered - 1 := rfl
      have e2 : (popState cap st).underruns = st.underruns := rfl
      have e3 : (popState cap st).overruns = st.overruns := rfl
      have e4 : (popState cap st).running = st.running := rfl
      have e5 : (popState cap st).ring = st.ring := rfl
      rw [e1] at h1
      rw [e2] at h2
      rw [e3] at h3
      rw [e4] at h4
      rw [e5] at h5
      exact ⟨by omega, h2, h3, h4, h5⟩
    · have hb0 : st.buffered = 0 := by omega
      obtain ⟨h1, h2, h3, h4, h5⟩ := ih (silenceState st)
      rw [fill_dma_buffer_silence_snd cap n st hb0]
      have e1 : (silenceState st).buffered = st.buffered := rfl
      have e2 : (silenceState st).underruns = st.underruns + 1 := rfl
      have e3 : (silenceState st).overruns = st.overruns := rfl
      have e4 : (silenceState st).running = st.running := rfl
      have e5 : (silenceState st).ring = st.ring := rfl
      rw [e1] at h1
      rw [e2] at h2
      rw [e3] at h3
      rw [e4] at h4
      rw [e5] at h5
      exact ⟨h1, by omega, h3, h4, h5⟩

end I2S

namespace I2S

/-- The state after the write loop appends one frame. -/
def pushState (cap : ℕ) (f : ℤ × ℤ) (st : State) : State :=
  { st with
    ring := fun j => if j = st.writePos then f else st.ring j
    writePos := (st.writePos + 1) % cap
    buffered := st.buffered + 1 }

theorem ringWrite_full (cap : ℕ) (f : ℤ × ℤ) (fs : List (ℤ × ℤ)) (st : State)
    (hb : cap - st.buffered = 0) :
    ringWrite cap (f :: fs) st = (0, { st with overruns := st.overruns + 1 }) := by
  simp [ringWrite, hb]

theorem ringWrite_push (cap : ℕ) (f : ℤ × ℤ) (fs : List (ℤ × ℤ)) (st : State)
    (hb : cap - st.buffered ≠ 0) :
    ringWrite cap (f :: fs) st =
      ((ringWrite cap fs (pushState cap f st)).1 + 1,
        (ringWrite cap fs (pushState cap f st)).2) := by
  simp [ringWrite, hb, pushState]

/-- Full behavioural description of the write loop on a well-formed state:
it writes `min count free_space` frames, advances the fill count by that
number, counts exactly one overrun when (and only when) there was not room
for every frame, and touches no ring slot outside the window it writes. -/
theorem ringWrite_spec (cap : ℕ) :
    ∀ (fs : List (ℤ × ℤ)) (st : State), st.buffered ≤ cap → st.writePos < cap →
      (ringWrite cap fs st).1 = min fs.length (cap - st.buffered) ∧
      (ringWrite cap fs st).2.buffered = st.buffered + (ringWrite cap fs st).1 ∧
      (ringWrite cap fs st).2.overruns =
        st.overruns + (if cap - st.buffered < fs.length then 1 else 0) ∧
      (∀ j, (∀ t, t < (ringWrite cap fs st).1 → j ≠ (st.writePos + t) % cap) →
        (ringWrite cap fs st).2.ring j = st.ring j) ∧
      (ringWrite cap fs st).2.readPos = st.readPos ∧
      (ringWrite cap fs st).2.underruns = st.underruns ∧
      (ringWrite cap fs st).2.running = st.running := by
  intro fs
  induction fs with
  | nil =>
    intro st _ _
    refine ⟨by simp [ringWrite], by simp [ringWrite], by simp [ringWrite], ?_, rfl, rfl, rfl⟩
    intro j _
    rfl
  | cons f fs ih =>
    intro st hb hw
    by_cases hfull : cap - st.buffered = 0
    · rw [ringWrite_full cap f fs st hfull]
      refine ⟨by simp [hfull], by simp, ?_, fun j _ => rfl, rfl, rfl, rfl⟩
      have : cap - st.buffered < fs.length + 1 := by omega
      simp [this]
    · have hlt : st.buffered < cap := by omega
      have hb' : (pushState cap f st).buffered ≤ cap := by
        show st.buffered + 1 ≤ cap
        omega
      have hw' : (pushState cap f st).writePos < cap := Nat.mod_lt _ (by omega)
      obtain ⟨ih1, ih2, ih3, ih4, ih5, ih6, ih7⟩ := ih (pushState cap f st) hb' hw'
      rw [ringWrite_push cap f fs st hfull]
      have ebuf : (pushState cap f st).buffered = st.buffered + 1 := rfl
      have eov : (pushState cap f st).overruns = st.overruns := rfl
      refine ⟨?_, ?_, ?_, ?_, ih5, ih6, ih7⟩
      · rw [ih1, ebuf]
        simp only [List.length_cons]
        omega
      · rw [ih2, ih1, ebuf]
        simp only [List.length_cons]
        omega
      · rw [ih3, eov, ebuf]
        simp only [List.length_cons]
        by_cases hov : cap - st.buffered < fs.length + 1
        · rw [if_pos (show cap - (st.buffered + 1) < fs.length by omega), if_pos hov]
        · rw [if_neg (show ¬ cap - (st.buffered + 1) < fs.length by omega), if_neg hov]
      · intro j hj
        have hj0 : j ≠ st.writePos := by
          have h0 := hj 0 (by omega)
          rwa [Nat.add_zero, Nat.mod_eq_of_lt hw] at h0
        have hrest : (ringWrite cap fs (pushState cap f st)).2.ring j =
            (pushState cap f st).ring j := by
          apply ih4
          intro t ht
          have hidx : ((pushState cap f st).writePos + t) % cap =
              (st.writePos + (t + 1)) % cap := by
            show ((st.writePos + 1) % cap + t) % cap = _
            rw [Nat.mod_add_mod]
            ring_nf
          rw [hidx]
          exact hj (t + 1) (by omega)
        rw [hrest]
        show (if j = st.writePos then f else st.ring j) = st.ring j
        rw [if_neg hj0]

/-- The write loop without well-formedness assumptions: the fill count never
exceeds the capacity when it started below it, the overrun counter never
decreases, and the underrun counter and running flag are untouched. -/
theorem ringWrite_mono (cap : ℕ) :
    ∀ (fs : List (ℤ × ℤ)) (st : State),
      (st.buffered ≤ cap → (ringWrite cap fs st).2.buffered ≤ cap) ∧
      st.overruns ≤ (ringWrite cap fs st).2.overruns ∧
      (ringWrite cap fs st).2.underruns = st.underruns ∧
      (ringWrite cap fs st).2.running = st.running := by
  intro fs
  induction fs with
  | nil => intro st; exact ⟨fun h => h, le_refl _, rfl, rfl⟩
  | cons f fs ih =>
    intro st
    by_cases hfull : cap - st.buffered = 0
    · rw [ringWrite_full cap f fs st hfull]
      exact ⟨fun h => h, by simp, rfl, rfl⟩
    · obtain ⟨ih1, ih2, ih3, ih4⟩ := ih (pushState cap f st)
      rw [ringWrite_push cap f fs st hfull]
      have ebuf : (pushState cap f st).buffered = st.buffered + 1 := rfl
      have eov : (pushState cap f st).overruns = st.overruns := rfl
      refine ⟨?_, ?_, ih3, ih4⟩
      · intro _
        apply ih1
        rw [ebuf]
        omega
      · rw [eov] at ih2
        exact ih2

end I2S

namespace I2S

/-- `audio_out_i2s_start` can only drain the ring buffer (by pre-filling
the two DMA buffers), can only add underruns, and never touches the
overrun counter. -/
theorem start_state (cap : ℕ) (st : State) :
    (audio_out_i2s_start cap st).buffered ≤ st.buffered ∧
    st.underruns ≤ (audio_out_i2s_start cap st).underruns ∧
    (audio_out_i2s_start cap st).overruns = st.overruns ∧
    (audio_out_i2s_start cap st).ring = st.ring := by
  unfold audio_out_i2s_start
  by_cases h : st.running = true
  · rw [if_pos h]
    exact ⟨le_refl _, le_refl _, rfl, rfl⟩
  · rw [if_neg h]
    obtain ⟨a1, a2, a3, _, a5⟩ := fill_dma_buffer_mono cap I2S_DMA_BUFFER_SIZE st
    obtain ⟨b1, b2, b3, _, b5⟩ := fill_dma_buffer_mono cap I2S_DMA_BUFFER_SIZE
      (fill_dma_buffer cap I2S_DMA_BUFFER_SIZE st).2
    exact ⟨le_trans b1 a1, le_trans a2 b2, b3.trans a3, b5.trans a5⟩

/-- The interrupt handler can only drain the ring buffer and add
underruns; it never touches the overrun counter. -/
theorem handler_state (cap : ℕ) (st : State) :
    (dma_handler cap st).buffered ≤ st.buffered ∧
    st.underruns ≤ (dma_handler cap st).underruns ∧
    (dma_handler cap st).overruns = st.overruns := by
  obtain ⟨a1, a2, a3, _, _⟩ := fill_dma_buffer_mono cap I2S_DMA_BUFFER_SIZE st
  unfold dma_handler
  by_cases h : st.currentDma = 0 <;> simp only [h, if_true, if_false, reduceIte] <;>
    exact ⟨a1, a2, a3⟩

/-- `audio_out_i2s_write` preserves the capacity invariant and never
decreases either statistics counter. -/
theorem write_state (cap : ℕ) (fs : List (ℤ × ℤ)) (st : State) :
    (st.buffered ≤ cap → (audio_out_i2s_write cap fs st).2.buffered ≤ cap) ∧
    st.underruns ≤ (audio_out_i2s_write cap fs st).2.underruns ∧
    st.overruns ≤ (audio_out_i2s_write cap fs st).2.overruns := by
  obtain ⟨w1, w2, w3, w4⟩ := ringWrite_mono cap fs st
  unfold audio_out_i2s_write
  dsimp only
  by_cases h : st.running = false ∧ AUTO_START_THRESHOLD cap ≤ (ringWrite cap fs st).2.buffered
  · rw [if_pos h]
    obtain ⟨s1, s2, s3, _⟩ := start_state cap (ringWrite cap fs st).2
    exact ⟨fun hb => le_trans s1 (w1 hb), le_trans (le_of_eq w3.symm) s2,
      le_trans w2 (le_of_eq s3.symm)⟩
  · rw [if_neg h]
    exact ⟨w1, le_of_eq w3.symm, w2⟩

/-- Every single output-stage operation preserves `buffered ≤ cap`. -/
theorem step_buffered (cap : ℕ) (op : Op) (st : State) (hb : st.buffered ≤ cap) :
    (step cap op st).buffered ≤ cap := by
  cases op with
  | write fs => exact (write_state cap fs st).1 hb
  | fill n => exact le_trans (fill_dma_buffer_mono cap n st).1 hb
  | start => exact le_trans (start_state cap st).1 hb
  | stop =>
    unfold step audio_out_i2s_stop
    by_cases h : st.running = false <;> simp [h, hb]
  | clear => exact Nat.zero_le cap
  | handler => exact le_trans (handler_state cap st).1 hb

/-- Every output-stage operation except `clear` leaves both statistics
counters non-decreasing. -/
theorem step_counters (cap : ℕ) (op : Op) (st : State) (h : op ≠ Op.clear) :
    st.underruns ≤ (step cap op st).underruns ∧
    st.overruns ≤ (step cap op st).overruns := by
  cases op with
  | write fs => exact ⟨(write_state cap fs st).2.1, (write_state cap fs st).2.2⟩
  | fill n =>
    exact ⟨(fill_dma_buffer_mono cap n st).2.1, le_of_eq (fill_dma_buffer_mono cap n st).2.2.1.symm⟩
  | start => exact ⟨(start_state cap st).2.1, le_of_eq (start_state cap st).2.2.1.symm⟩
  | stop =>
    unfold step audio_out_i2s_stop
    by_cases hr : st.running = false <;> simp [hr]
  | clear => exact absurd rfl h
  | handler => exact ⟨(handler_state cap st).2.1, le_of_eq (handler_state cap st).2.2.symm⟩

/-- The capacity invariant holds along every operation sequence. -/
theorem run_buffered (cap : ℕ) :
    ∀ (ops : List Op) (st : State), st.buffered ≤ cap → (run cap ops st).buffered ≤ cap := by
  intro ops
  induction ops with
  | nil => intro st h; exact h
  | cons op ops ih => intro st h; exact ih _ (step_buffered cap op st h)

/-- Along every clear-free operation sequence both counters are
non-decreasing. -/
theorem run_counters (cap : ℕ) :
    ∀ (ops : List Op) (st : State), Op.clear ∉ ops →
      st.underruns ≤ (run cap ops st).underruns ∧
      st.overruns ≤ (run cap ops st).overruns := by
  intro ops
  induction ops with
  | nil => intro st _; exact ⟨le_refl _, le_refl _⟩
  | cons op ops ih =>
    intro st h
    have hop : op ≠ Op.clear := fun he => h (he ▸ List.mem_cons_self op ops)
    have hops : Op.clear ∉ ops := fun he => h (List.mem_cons_of_mem op he)
    obtain ⟨u1, o1⟩ := step_counters cap op st hop
    obtain ⟨u2, o2⟩ := ih (step cap op st) hops
    exact ⟨le_trans u1 u2, le_trans o1 o2⟩

end I2S

namespace I2S

/-- C1: consuming `n` output slots from a ring buffer holding `f < n`
frames completely fills the destination (length `n`, never short): the
first `f` words are the oldest buffered frames packed in FIFO order, the
remaining `n - f` words are silence, the underrun counter grows by exactly
`n - f`, and the fill count ends at 0. -/
theorem C1_consume_underrun_full_fill (cap n : ℕ) (st : State)
    (hr : st.readPos < cap) (hf : st.buffered < n) :
    (fill_dma_buffer cap n st).1.length = n ∧
    (∀ i, i < st.buffered →
      (fill_dma_buffer cap n st).1.getD i 0 =
        pack_frame (st.ring ((st.readPos + i) % cap))) ∧
    (∀ i, st.buffered ≤ i → i < n → (fill_dma_buffer cap n st).1.getD i 0 = 0) ∧
    (fill_dma_buffer cap n st).2.underruns = st.underruns + (n - st.buffered) ∧
    (fill_dma_buffer cap n st).2.buffered = 0 := by
  obtain ⟨h1, h2, h3, h4, _⟩ := fill_dma_buffer_spec cap n st hr
  refine ⟨h1, ?_, ?_, h4, ?_⟩
  · intro i hi
    rw [h2 i (by omega), if_pos hi]
  · intro i hi1 hi2
    rw [h2 i hi2, if_neg (by omega)]
  · rw [h3]
    omega

/-- Concrete scenario-1 state: capacity 100, 30 buffered frames starting
at slot 0, with distinguishable frame contents. -/
def c1State : State :=
  { ring := fun i => ((i : ℤ) + 1, -((i : ℤ) + 1)), writePos := 30, readPos := 0
    buffered := 30, underruns := 0, overruns := 0, running := true
    dma0 := [], dma1 := [], currentDma := 0 }

theorem C1_witness :
    c1State.readPos < 100 ∧ c1State.buffered < 50 ∧
    ((fill_dma_buffer 100 50 c1State).1.length = 50 ∧
      (∀ i, i < c1State.buffered →
        (fill_dma_buffer 100 50 c1State).1.getD i 0 =
          pack_frame (c1State.ring ((c1State.readPos + i) % 100))) ∧
      (∀ i, c1State.buffered ≤ i → i < 50 →
        (fill_dma_buffer 100 50 c1State).1.getD i 0 = 0) ∧
      (fill_dma_buffer 100 50 c1State).2.underruns = c1State.underruns + (50 - c1State.buffered) ∧
      (fill_dma_buffer 100 50 c1State).2.buffered = 0) :=
  ⟨by decide, by decide, C1_consume_underrun_full_fill 100 50 c1State (by decide) (by decide)⟩

/-- C2: the capacity invariant `buffered ≤ cap` is preserved by every
sequence of output-stage operations, and a write against insufficient free
space writes exactly `free_space` frames, reports only those as written,
and modifies no ring slot outside the window it writes. -/
theorem C2_capacity_invariant_partial_write :
    (∀ (cap : ℕ) (ops : List Op) (st : State), st.buffered ≤ cap →
      (run cap ops st).buffered ≤ cap) ∧
    (∀ (cap : ℕ) (fs : List (ℤ × ℤ)) (st : State),
      st.buffered ≤ cap → st.writePos < cap → cap - st.buffered < fs.length →
      (audio_out_i2s_write cap fs st).1 = cap - st.buffered ∧
      (∀ j, (∀ t, t < cap - st.buffered → j ≠ (st.writePos + t) % cap) →
        (audio_out_i2s_write cap fs st).2.ring j = st.ring j)) := by
  constructor
  · exact run_buffered
  · intro cap fs st hb hw hover
    obtain ⟨r1, r2, r3, r4, r5, r6, r7⟩ := ringWrite_spec cap fs st hb hw
    have hwrote : (ringWrite cap fs st).1 = cap - st.buffered := by
      rw [r1]
      omega
    have hring : (audio_out_i2s_write cap fs st).2.ring = (ringWrite cap fs st).2.ring := by
      unfold audio_out_i2s_write
      dsimp only
      by_cases h : st.running = false ∧
          AUTO_START_THRESHOLD cap ≤ (ringWrite cap fs st).2.buffered
      · rw [if_pos h]
        exact (start_state cap (ringWrite cap fs st).2).2.2.2
      · rw [if_neg h]
    refine ⟨hwrote, ?_⟩
    intro j hj
    rw [hring]
    apply r4
    intro t ht
    rw [hwrote] at ht
    exact hj t ht

/-- A small well-formed state (capacity 3 in the witness): 2 of 3 slots
filled. -/
def c2State : State :=
  { ring := fun _ => (5, 5), writePos := 0, readPos := 0, buffered := 2
    underruns := 0, overruns := 0, running := true
    dma0 := [], dma1 := [], currentDma := 0 }

theorem C2_witness :
    c2State.buffered ≤ 3 ∧ c2State.writePos < 3 ∧
    3 - c2State.buffered < ([(1, 1), (2, 2)] : List (ℤ × ℤ)).length ∧
    (run 3 [Op.fill 2, Op.clear, Op.start] c2State).buffered ≤ 3 ∧
    ((audio_out_i2s_write 3 [(1, 1), (2, 2)] c2State).1 = 3 - c2State.buffered ∧
      (∀ j, (∀ t, t < 3 - c2State.buffered → j ≠ (c2State.writePos + t) % 3) →
        (audio_out_i2s_write 3 [(1, 1), (2, 2)] c2State).2.ring j = c2State.ring j)) :=
  ⟨by decide, by decide, by decide,
    C2_capacity_invariant_partial_write.1 3 [Op.fill 2, Op.clear, Op.start] c2State (by decide),
    C2_capacity_invariant_partial_write.2 3 [(1, 1), (2, 2)] c2State
      (by decide) (by decide) (by decide)⟩

end I2S

namespace I2S

/-- Concrete scenario-2 state: capacity 100 (in the theorems below),
currently holding 95 frames. -/
def c3State : State :=
  { ring := fun _ => (0, 0), writePos := 95, readPos := 0, buffered := 95
    underruns := 0, overruns := 0, running := true
    dma0 := [], dma1 := [], currentDma := 0 }

/-- Ten input frames for the scenario-2 write. -/
def c3Frames : List (ℤ × ℤ) := List.replicate 10 (7, 7)

/-- C3 counterexample: with capacity 100 holding 95, writing 10 frames
returns `frames_written = 5` and leaves `filled_count = 100`, but the
overrun counter increases by exactly 1 (the loop counts one overrun event
and breaks), not by the 5 dropped frames the claim demands. -/
theorem C3_counterexample :
    (audio_out_i2s_write 100 c3Frames c3State).1 = 5 ∧
    (audio_out_i2s_write 100 c3Frames c3State).2.buffered = 100 ∧
    (audio_out_i2s_write 100 c3Frames c3State).2.overruns = c3State.overruns + 1 ∧
    c3State.overruns + 1 ≠ c3State.overruns + 5 := by
  refine ⟨by decide, by decide, by decide, by decide⟩

/-- C3 amended: a write of `k` frames against free space `d < k` (on a
well-formed running output) returns `frames_written = d`, fills the buffer
to capacity, and increases the overrun counter by exactly 1 — one count
per overrunning write call, not one per dropped frame. -/
theorem C3_amended_short_write_single_overrun (cap : ℕ) (fs : List (ℤ × ℤ)) (st : State)
    (hb : st.buffered ≤ cap) (hw : st.writePos < cap) (hrun : st.running = true)
    (hover : cap - st.buffered < fs.length) :
    (audio_out_i2s_write cap fs st).1 = cap - st.buffered ∧
    (audio_out_i2s_write cap fs st).2.overruns = st.overruns + 1 ∧
    (audio_out_i2s_write cap fs st).2.buffered = cap := by
  obtain ⟨r1, r2, r3, r4, r5, r6, r7⟩ := ringWrite_spec cap fs st hb hw
  have hnostart : (audio_out_i2s_write cap fs st).2 = (ringWrite cap fs st).2 := by
    unfold audio_out_i2s_write
    dsimp only
    rw [if_neg]
    intro hcon
    rw [hrun] at hcon
    exact absurd hcon.1 (by simp)
  refine ⟨?_, ?_, ?_⟩
  · show (ringWrite cap fs st).1 = _
    rw [r1]
    omega
  · rw [hnostart, r3, if_pos hover]
  · rw [hnostart, r2, r1]
    omega

theorem C3_witness :
    c3State.buffered ≤ 100 ∧ c3State.writePos < 100 ∧ c3State.running = true ∧
    100 - c3State.buffered < c3Frames.length ∧
    ((audio_out_i2s_write 100 c3Frames c3State).1 = 100 - c3State.buffered ∧
      (audio_out_i2s_write 100 c3Frames c3State).2.overruns = c3State.overruns + 1 ∧
      (audio_out_i2s_write 100 c3Frames c3State).2.buffered = 100) :=
  ⟨by decide, by decide, by decide, by decide,
    C3_amended_short_write_single_overrun 100 c3Frames c3State
      (by decide) (by decide) (by decide) (by decide)⟩

/-- C6: after `start()` the active DMA buffer index alternates strictly
0, 1, 0, 1, …; every handler invocation flips the index and leaves the
buffer that just finished refilled from the ring buffer (so the inactive
buffer is always the freshly filled one); `start()` while running and
`stop()` while stopped are exact no-ops. -/
theorem C6_double_buffer_alternation (cap : ℕ) (st : State) (h : st.running = false) :
    (∀ n : ℕ, ((dma_handler cap)^[n] (audio_out_i2s_start cap st)).currentDma = n % 2) ∧
    (∀ s : State, (dma_handler cap s).currentDma = 1 - s.currentDma ∧
      dmaBuf (dma_handler cap s) s.currentDma = (fill_dma_buffer cap I2S_DMA_BUFFER_SIZE s).1) ∧
    (∀ s : State, s.running = true → audio_out_i2s_start cap s = s) ∧
    (∀ s : State, s.running = false → audio_out_i2s_stop s = s) := by
  have hhandler : ∀ s : State, (dma_handler cap s).currentDma = 1 - s.currentDma ∧
      dmaBuf (dma_handler cap s) s.currentDma =
        (fill_dma_buffer cap I2S_DMA_BUFFER_SIZE s).1 := by
    intro s
    unfold dma_handler
    dsimp only
    by_cases hc : s.currentDma = 0
    · rw [if_pos hc]
      exact ⟨rfl, by simp [dmaBuf, hc]⟩
    · rw [if_neg hc]
      exact ⟨rfl, by simp [dmaBuf, hc]⟩
  have hstart0 : (audio_out_i2s_start cap st).currentDma = 0 := by
    unfold audio_out_i2s_start
    rw [if_neg (by rw [h]; simp)]
  refine ⟨?_, hhandler, ?_, ?_⟩
  · intro n
    induction n with
    | zero => simpa using hstart0
    | succ n ih =>
      rw [Function.iterate_succ_apply', (hhandler _).1, ih]
      omega
  · intro s hs
    unfold audio_out_i2s_start
    rw [if_pos hs]
  · intro s hs
    unfold audio_out_i2s_stop
    rw [if_pos hs]

/-- A stopped, empty state for the C6 witness. -/
def c6State : State :=
  { ring := fun _ => (1, 2), writePos := 0, readPos := 0, buffered := 0
    underruns := 0, overruns := 0, running := false
    dma0 := [], dma1 := [], currentDma := 0 }

theorem C6_witness :
    c6State.running = false ∧
    ((dma_handler 4)^[3] (audio_out_i2s_start 4 c6State)).currentDma = 3 % 2 ∧
    ((dma_handler 4 c6State).currentDma = 1 - c6State.currentDma ∧
      dmaBuf (dma_handler 4 c6State) c6State.currentDma =
        (fill_dma_buffer 4 I2S_DMA_BUFFER_SIZE c6State).1) ∧
    audio_out_i2s_stop c6State = c6State :=
  ⟨rfl, (C6_double_buffer_alternation 4 c6State rfl).1 3,
    (C6_double_buffer_alternation 4 c6State rfl).2.1 c6State,
    (C6_double_buffer_alternation 4 c6State rfl).2.2.2 c6State rfl⟩

/-- A state with nonzero statistics counters. -/
def c9State : State :=
  { ring := fun _ => (0, 0), writePos := 0, readPos := 0, buffered := 0
    underruns := 3, overruns := 2, running := false
    dma0 := [], dma1 := [], currentDma := 0 }

/-- C9 counterexample: `clear` is one of the claimed operations, yet
`audio_out_i2s_clear_buffer` resets both counters to zero, strictly
decreasing them on any state with nonzero counts. -/
theorem C9_counterexample :
    (step 1 Op.clear c9State).underruns < c9State.underruns ∧
    (step 1 Op.clear c9State).overruns < c9State.overruns := by
  refine ⟨by decide, by decide⟩

/-- C9 amended: the underrun and overrun counters are monotonically
non-decreasing over every sequence of write, consume/fill, start, stop and
handler operations; `clear` is the single exception and resets both
counters to exactly zero. -/
theorem C9_amended_counters_monotone :
    (∀ (cap : ℕ) (ops : List Op) (st : State), Op.clear ∉ ops →
      st.underruns ≤ (run cap ops st).underruns ∧
      st.overruns ≤ (run cap ops st).overruns) ∧
    (∀ st : State, (audio_out_i2s_clear_buffer st).underruns = 0 ∧
      (audio_out_i2s_clear_buffer st).overruns = 0) :=
  ⟨fun cap ops st h => run_counters cap ops st h, fun _ => ⟨rfl, rfl⟩⟩

theorem C9_witness :
    Op.clear ∉ ([Op.fill 1, Op.stop, Op.start] : List Op) ∧
    (c9State.underruns ≤ (run 1 [Op.fill 1, Op.stop, Op.start] c9State).underruns ∧
      c9State.overruns ≤ (run 1 [Op.fill 1, Op.stop, Op.start] c9State).overruns) ∧
    ((audio_out_i2s_clear_buffer c9State).underruns = 0 ∧
      (audio_out_i2s_clear_buffer c9State).overruns = 0) :=
  ⟨by simp, C9_amended_counters_monotone.1 1 [Op.fill 1, Op.stop, Op.start] c9State (by simp),
    C9_amended_counters_monotone.2 c9State⟩

end I2S

/-
Embedding of the beat-repeat effect engine of `audio_effect.c` (the plain
variant).  Namespace `EFX`.  A PCM block (`int16_t *data`, `num_samples`
stereo pairs) is modelled as a `List (ℤ × ℤ)` of frames, mutated in place
by returning the new list; a NULL pointer never arises for it here because
a list is always a valid block (the `!data` guard is subsumed).
-/

namespace EFX

def SAMPLE_MAX : ℤ := 32767

def SAMPLE_MIN : ℤ := -32768

def MAX_SLICE_LENGTH : ℕ := 44100

def MIN_SLICE_LENGTH : ℕ := 128

def MIN_REPEAT_COUNT : ℕ := 1

def MAX_REPEAT_COUNT : ℕ := 16

def MAX_WET_MIX : ℕ := 100

def MIN_PITCH_SHIFT : ℚ := 1 / 4

def MAX_PITCH_SHIFT : ℚ := 4

def MIN_STUTTER_LENGTH : ℕ := 64

def MIN_WINDOW_SHAPE : ℚ := 0

def MAX_WINDOW_SHAPE : ℚ := 1

/-- C cast of a float value to an integer: truncation toward zero. -/
def ratTrunc (q : ℚ) : ℤ := if q < 0 then -Int.floor (-q) else Int.floor q

/-- Storing an integer into an `int16_t`: two's-complement wrap into
`[-32768, 32767]`. -/
def toInt16 (z : ℤ) : ℤ := (z + 32768) % 65536 - 32768

/-- `2^32`, for modelling `uint32_t` wrap-around. -/
def U32_MOD : ℕ := 4294967296

/-- `uint32_t` subtraction `a - b` with wrap-around. -/
def u32_sub (a b : ℕ) : ℕ := (a + (U32_MOD - b % U32_MOD)) % U32_MOD

/-- The `int32_t` intermediate of `mix_samples` before clipping: C integer
division truncates toward zero, which is `Int.tdiv`. -/
def mix_intermediate (dry wet wet_percent : ℤ) : ℤ :=
  Int.tdiv (dry * ((MAX_WET_MIX : ℤ) - wet_percent)) (MAX_WET_MIX : ℤ) +
    Int.tdiv (wet * wet_percent) (MAX_WET_MIX : ℤ)

/-- `mix_samples`: dry/wet crossfade computed in 32-bit intermediates,
hard-clipped to the 16-bit sample range. -/
def mix_samples (dry wet : ℤ) (wet_percent : ℕ) : ℤ :=
  let result := mix_intermediate dry wet (wet_percent : ℤ)
  if result > SAMPLE_MAX then SAMPLE_MAX
  else if result < SAMPLE_MIN then SAMPLE_MIN
  else result

/-- `beat_repeat_params_t` (plain variant of `audio_effect.h`). -/
structure Params where
  slice_length : ℕ
  repeat_count : ℕ
  wet_mix : ℕ
  enabled : Bool
  pitch_shift : ℚ
  reverse : Bool
  stutter_enabled : Bool
  stutter_slice_length : ℕ
  window_shape : ℚ

def validate_slice_length (slice_len : ℕ) : ℕ :=
  if slice_len > MAX_SLICE_LENGTH then MAX_SLICE_LENGTH
  else if slice_len < MIN_SLICE_LENGTH then MIN_SLICE_LENGTH
  else slice_len

def validate_repeat_count (r : ℕ) : ℕ :=
  if r < MIN_REPEAT_COUNT then MIN_REPEAT_COUNT
  else if r > MAX_REPEAT_COUNT then MAX_REPEAT_COUNT
  else r

def validate_wet_mix (wet : ℕ) : ℕ := if wet > MAX_WET_MIX then MAX_WET_MIX else wet

def validate_pitch_shift (pitch : ℚ) : ℚ :=
  if pitch < MIN_PITCH_SHIFT then MIN_PITCH_SHIFT
  else if pitch > MAX_PITCH_SHIFT then MAX_PITCH_SHIFT
  else pitch

def validate_stutter_length (stutter_len : ℕ) : ℕ :=
  if stutter_len < MIN_STUTTER_LENGTH then MIN_STUTTER_LENGTH
  else if stutter_len > MAX_SLICE_LENGTH then MAX_SLICE_LENGTH
  else stutter_len

def validate_window_shape (window : ℚ) : ℚ :=
  if window < MIN_WINDOW_SHAPE then MIN_WINDOW_SHAPE
  else if window > MAX_WINDOW_SHAPE then MAX_WINDOW_SHAPE
  else window

/-- The module state of `audio_effect.c`: the current parameter snapshot,
the rolling slice-capture buffer, its cursors, and the repeat flags. -/
structure EffectState where
  current_params : Params
  slice_buffer : ℕ → ℤ × ℤ
  slice_write_pos : ℕ
  slice_read_pos_f : ℚ
  repeat_counter : ℕ
  is_repeating : Bool
  is_initialized : Bool

set_option linter.unusedVariables false in
/-- `audio_effect_init`: default parameters and cleared state (the C float
default `0.05f` for the window shape is written `1/20`; the sample-rate
argument is stored only for logging in the source and is unused here). -/
def audio_effect_init (sr : ℕ) : EffectState :=
  { current_params :=
      { slice_length := 44100 / 4, repeat_count := 4, wet_mix := 70, enabled := true
        pitch_shift := 1, reverse := false, stutter_enabled := false
        stutter_slice_length := 44100 / 100, window_shape := 1 / 20 }
    slice_buffer := fun _ => (0, 0)
    slice_write_pos := 0, slice_read_pos_f := 0, repeat_counter := 0
    is_repeating := false, is_initialized := true }

/-- `audio_effect_set_params`: NULL is a no-op; otherwise every field is
validated independently and the booleans are copied. -/
def audio_effect_set_params (params : Option Params) (st : EffectState) : EffectState :=
  match params with
  | none => st
  | some p =>
    { st with current_params :=
      { slice_length := validate_slice_length p.slice_length
        repeat_count := validate_repeat_count p.repeat_count
        wet_mix := validate_wet_mix p.wet_mix
        pitch_shift := validate_pitch_shift p.pitch_shift
        stutter_slice_length := validate_stutter_length p.stutter_slice_length
        window_shape := validate_window_shape p.window_shape
        enabled := p.enabled
        reverse := p.reverse
        stutter_enabled := p.stutter_enabled } }

/-- `audio_effect_get_params`: NULL writes nothing; otherwise the last
validated snapshot is copied out. -/
def audio_effect_get_params (st : EffectState) (params : Option Params) : Option Params :=
  match params with
  | none => none
  | some _ => some st.current_params

/-- `audio_effect_reset`. -/
def audio_effect_reset (st : EffectState) : EffectState :=
  { st with
    slice_buffer := fun _ => (0, 0)
    slice_write_pos := 0, slice_read_pos_f := 0, repeat_counter := 0, is_repeating := false }

/-- `interpolate_sample`: linear interpolation between two adjacent
captured samples at a fractional position, clipped to the sample range. -/
def interpolate_sample (buf : ℕ → ℤ × ℤ) (pos : ℚ) (max_length : ℕ) (is_left : Bool) : ℤ :=
  if pos < 0 ∨ (max_length : ℚ) ≤ pos then 0
  else
    let pos_int : ℕ := (ratTrunc pos).toNat
    let frac : ℚ := pos - (pos_int : ℚ)
    let ch : ℤ × ℤ → ℤ := fun f => if is_left then f.1 else f.2
    let sample1 := ch (buf pos_int)
    let sample2 := if pos_int + 1 < max_length then ch (buf (pos_int + 1)) else sample1
    let result : ℚ := (sample1 : ℚ) * (1 - frac) + (sample2 : ℚ) * frac
    let clipped : ℚ :=
      if result > (SAMPLE_MAX : ℚ) then (SAMPLE_MAX : ℚ)
      else if result < (SAMPLE_MIN : ℚ) then (SAMPLE_MIN : ℚ)
      else result
    ratTrunc clipped

/-- `get_window_envelope`: trapezoidal fade envelope; the
`length - fade_len` and `length - pos` subtractions are `uint32_t` and may
wrap, which is modelled by `u32_sub`. -/
def get_window_envelope (pos length : ℕ) (window_shape : ℚ) : ℚ :=
  if window_shape ≤ 0 then 1
  else
    let fade_len : ℕ := (ratTrunc ((length : ℚ) * window_shape)).toNat
    if fade_len = 0 then 1
    else if pos < fade_len then (pos : ℚ) / (fade_len : ℚ)
    else if u32_sub length fade_len ≤ pos then ((u32_sub length pos : ℕ) : ℚ) / (fade_len : ℚ)
    else 1

/-- `write_to_slice_buffer`: record the incoming dry frame at the capture
cursor. -/
def write_to_slice_buffer (st : EffectState) (input_l input_r : ℤ) : EffectState :=
  { st with
    slice_buffer := fun j =>
      if j = st.slice_write_pos then (input_l, input_r) else st.slice_buffer j
    slice_write_pos := st.slice_write_pos + 1 }

/-- `calculate_read_position` (reverse playback maps the cursor to the
mirrored position). -/
def calculate_read_position (slice_read_pos : ℚ) (slice_length : ℕ) (reverse : Bool) : ℚ :=
  if reverse then (slice_length : ℚ) - 1 - slice_read_pos else slice_read_pos

/-- `read_slice_with_pitch`: interpolated read, then the cursor advances by
the pitch ratio. -/
def read_slice_with_pitch (st : EffectState) (slice_length : ℕ) : (ℤ × ℤ) × EffectState :=
  let read_pos := calculate_read_position st.slice_read_pos_f slice_length st.current_params.reverse
  let l := interpolate_sample st.slice_buffer read_pos slice_length true
  let r := interpolate_sample st.slice_buffer read_pos slice_length false
  ((l, r), { st with slice_read_pos_f := st.slice_read_pos_f + st.current_params.pitch_shift })

/-- `read_slice_normal`: direct read at the truncated cursor, then the
cursor advances by 1. -/
def read_slice_normal (st : EffectState) : (ℤ × ℤ) × EffectState :=
  let read_idx : ℕ := (ratTrunc st.slice_read_pos_f).toNat
  (st.slice_buffer read_idx, { st with slice_read_pos_f := st.slice_read_pos_f + 1 })

/-- `apply_window_shape`: multiply by the envelope and store back into
`int16_t` samples. -/
def apply_window_shape (p : Params) (read_pos : ℚ) (sample_l sample_r : ℤ)
    (slice_length : ℕ) : ℤ × ℤ :=
  if p.window_shape > 0 then
    let envelope := get_window_envelope (ratTrunc read_pos).toNat slice_length p.window_shape
    (toInt16 (ratTrunc ((sample_l : ℚ) * envelope)),
      toInt16 (ratTrunc ((sample_r : ℚ) * envelope)))
  else (sample_l, sample_r)

/-- `check_repeat_end`: wrap the cursor at the slice end, count the repeat,
and stop repeating once the configured repeat count is reached. -/
def check_repeat_end (st : EffectState) (slice_length : ℕ) : EffectState :=
  if (slice_length : ℚ) ≤ st.slice_read_pos_f then
    let st1 := { st with slice_read_pos_f := 0, repeat_counter := st.repeat_counter + 1 }
    if st1.current_params.repeat_count ≤ st1.repeat_counter then
      { st1 with is_repeating := false, repeat_counter := 0 }
    else st1
  else st

/-- The capture-cursor wrap at the top of the per-frame loop: when the
slice fills up, rewind the cursor and (if not already repeating) enter the
repeating state. -/
def advance_capture (asl : ℕ) (st : EffectState) : EffectState :=
  if asl ≤ st.slice_write_pos then
    let s := { st with slice_write_pos := 0 }
    if s.is_repeating = false then
      { s with is_repeating := true, slice_read_pos_f := 0, repeat_counter := 0 }
    else s
  else st

/-- One iteration of the per-frame loop of `audio_effect_process`. -/
def processFrame (asl : ℕ) (st : EffectState) (input : ℤ × ℤ) : EffectState × (ℤ × ℤ) :=
  let st2 := advance_capture asl (write_to_slice_buffer st input.1 input.2)
  if st2.is_repeating = true then
    let p := st2.current_params
    let rr :=
      if p.pitch_shift ≠ 1 ∨ p.reverse = true then read_slice_with_pitch st2 asl
      else read_slice_normal st2
    let windowed := apply_window_shape p rr.2.slice_read_pos_f rr.1.1 rr.1.2 asl
    let output :=
      (mix_samples input.1 windowed.1 p.wet_mix, mix_samples input.2 windowed.2 p.wet_mix)
    (check_repeat_end rr.2 asl, output)
  else (st2, input)

/-- The per-block loop. -/
def processLoop (asl : ℕ) : EffectState → List (ℤ × ℤ) → EffectState × List (ℤ × ℤ)
  | st, [] => (st, [])
  | st, f :: fs =>
    let r := processFrame asl st f
    let rest := processLoop asl r.1 fs
    (rest.1, r.2 :: rest.2)

/-- `audio_effect_process`: no-op unless initialized, stereo and enabled;
otherwise run the per-frame beat-repeat loop over the block. -/
def audio_effect_process (st : EffectState) (data : List (ℤ × ℤ)) (num_channels : ℕ) :
    EffectState × List (ℤ × ℤ) :=
  if st.is_initialized = false ∨ num_channels ≠ 2 then (st, data)
  else if st.current_params.enabled = false then (st, data)
  else
    let active_slice_length :=
      if st.current_params.stutter_enabled then st.current_params.stutter_slice_length
      else st.current_params.slice_length
    processLoop active_slice_length st data

end EFX

namespace EFX

/-- The signed 16-bit sample range. -/
def inRange16 (x : ℤ) : Prop := SAMPLE_MIN ≤ x ∧ x ≤ SAMPLE_MAX

/-- `mix_samples` hard-clips, so its result is always a legal sample. -/
theorem mix_samples_inRange (dry wet : ℤ) (wp : ℕ) : inRange16 (mix_samples dry wet wp) := by
  unfold mix_samples inRange16 SAMPLE_MIN SAMPLE_MAX
  dsimp only
  split_ifs with h1 h2
  · exact ⟨by omega, le_refl _⟩
  · exact ⟨le_refl _, by omega⟩
  · unfold SAMPLE_MAX at h1
    unfold SAMPLE_MIN at h2
    exact ⟨by omega, by omega⟩

/-- A frame processed by the loop body is either the dry input or a pair of
`mix_samples` results, hence in range whenever the input is. -/
theorem processFrame_output_inRange (asl : ℕ) (st : EffectState) (f : ℤ × ℤ)
    (h1 : inRange16 f.1) (h2 : inRange16 f.2) :
    inRange16 (processFrame asl st f).2.1 ∧ inRange16 (processFrame asl st f).2.2 := by
  unfold processFrame
  dsimp only
  by_cases h : (advance_capture asl (write_to_slice_buffer st f.1 f.2)).is_repeating = true
  · rw [if_pos h]
    exact ⟨mix_samples_inRange _ _ _, mix_samples_inRange _ _ _⟩
  · rw [if_neg h]
    exact ⟨h1, h2⟩

/-- Every frame emitted by the per-block loop is in range whenever every
input frame is. -/
theorem processLoop_output_inRange (asl : ℕ) :
    ∀ (data : List (ℤ × ℤ)) (st : EffectState),
      (∀ f ∈ data, inRange16 f.1 ∧ inRange16 f.2) →
      ∀ g ∈ (processLoop asl st data).2, inRange16 g.1 ∧ inRange16 g.2 := by
  intro data
  induction data with
  | nil =>
    intro st _ g hg
    simp [processLoop] at hg
  | cons f fs ih =>
    intro st h g hg
    have hstep : (processLoop asl st (f :: fs)).2 =
        (processFrame asl st f).2 :: (processLoop asl (processFrame asl st f).1 fs).2 := rfl
    rw [hstep] at hg
    rcases List.mem_cons.mp hg with he | hm
    · have hf := h f (List.mem_cons_self f fs)
      rw [he]
      exact processFrame_output_inRange asl st f hf.1 hf.2
    · exact ih (processFrame asl st f).1 (fun x hx => h x (List.mem_cons_of_mem f hx)) g hm

/-- Magnitude bound for one mixing term `(v * c) / 100` (C truncating
division) with a 16-bit value and a factor of magnitude at most 100. -/
theorem mix_term_bound (v c : ℤ) (hv : v.natAbs ≤ 32768) (hc : c.natAbs ≤ 100) :
    (Int.tdiv (v * c) 100).natAbs ≤ 32768 := by
  have h1 : (Int.tdiv (v * c) 100).natAbs = (v * c).natAbs / (100 : ℤ).natAbs :=
    Int.natAbs_tdiv _ _
  have h2 : (v * c).natAbs ≤ 32768 * 100 := by
    rw [Int.natAbs_mul]
    exact Nat.mul_le_mul hv hc
  rw [h1]
  calc (v * c).natAbs / (100 : ℤ).natAbs = (v * c).natAbs / 100 := rfl
    _ ≤ 32768 * 100 / 100 := Nat.div_le_div_right h2
    _ = 32768 := by norm_num

end EFX

namespace EFX

/-- C7: every sample written back by `audio_effect_process` lies in the
signed 16-bit range `[-32768, 32767]` (for any in-range input block, any
state and any channel count), and the 32-bit mixing intermediate — the sum
of the dry part and the wet part computed by `mix_samples` — stays strictly
inside the `int32_t` range for 16-bit operands and a wet percentage of at
most 100, so it never overflows before the final hard clip. -/
theorem C7_output_range_and_mix_no_overflow :
    (∀ (st : EffectState) (data : List (ℤ × ℤ)) (ch : ℕ),
      (∀ f ∈ data, inRange16 f.1 ∧ inRange16 f.2) →
      ∀ g ∈ (audio_effect_process st data ch).2, inRange16 g.1 ∧ inRange16 g.2) ∧
    (∀ dry wet wp : ℤ, inRange16 dry → inRange16 wet → 0 ≤ wp → wp ≤ 100 →
      -(2 ^ 31) ≤ mix_intermediate dry wet wp ∧ mix_intermediate dry wet wp < 2 ^ 31) := by
  constructor
  · intro st data ch h
    unfold audio_effect_process
    by_cases g1 : st.is_initialized = false ∨ ch ≠ 2
    · rw [if_pos g1]
      exact h
    · rw [if_neg g1]
      by_cases g2 : st.current_params.enabled = false
      · rw [if_pos g2]
        exact h
      · rw [if_neg g2]
        exact processLoop_output_inRange _ data st h
  · intro dry wet wp hd hw h0 h100
    have hd' : dry.natAbs ≤ 32768 := by
      unfold inRange16 SAMPLE_MIN SAMPLE_MAX at hd
      omega
    have hw' : wet.natAbs ≤ 32768 := by
      unfold inRange16 SAMPLE_MIN SAMPLE_MAX at hw
      omega
    have ha := mix_term_bound dry ((MAX_WET_MIX : ℤ) - wp) hd' (by unfold MAX_WET_MIX; omega)
    have hb := mix_term_bound wet wp hw' (by omega)
    unfold mix_intermediate
    unfold MAX_WET_MIX at ha hb ⊢
    push_cast at ha hb ⊢
    omega

/-- The scenario-3 parameter request: slice length 4 (below the documented
minimum of 128), one repeat, fully wet, all other features off. -/
def c8Params : Params :=
  { slice_length := 4, repeat_count := 1, wet_mix := 100, enabled := true
    pitch_shift := 1, reverse := false, stutter_enabled := false
    stutter_slice_length := 441, window_shape := 0 }

/-- The engine state after `init` and `set_params` with `c8Params`. -/
def c8State : EffectState := audio_effect_set_params (some c8Params) (audio_effect_init 44100)

/-- Scenario-3 input: the nonzero pattern 1,2,3,4 (same on both channels)
followed by 8 frames of silence. -/
def c8Input : List (ℤ × ℤ) :=
  [(1, 1), (2, 2), (3, 3), (4, 4)] ++ List.replicate 8 (0, 0)

/-- C8 counterexample: with `slice_length = 4` requested through
`set_params`, frame 5 of the output (index 4) is silence, not the first
pattern value 1 that the claim requires — the slice length was clamped up
to 128, so no repeat is ever triggered in this 12-frame scenario. -/
theorem C8_counterexample :
    (audio_effect_process c8State c8Input 2).2.getD 4 (0, 0) = (0, 0) ∧
    ((0 : ℤ), (0 : ℤ)) ≠ ((1 : ℤ), (1 : ℤ)) := by
  refine ⟨by decide, by decide⟩

/-- C8 amended: `set_params` clamps the requested slice length 4 up to the
minimum 128, so in the 12-frame scenario the capture cursor never reaches
the slice end, the engine never starts repeating, and the whole block
passes through unchanged — frames 5–8 stay silent instead of reproducing
the pattern. -/
theorem C8_amended_clamped_slice_passthrough :
    c8State.current_params.slice_length = 128 ∧
    (audio_effect_process c8State c8Input 2).2 = c8Input := by
  refine ⟨by decide, by decide⟩

/-- C10: `audio_effect_set_params NULL` changes nothing,
`audio_effect_get_params NULL` writes nothing, and a later `get_params`
still returns the previously stored snapshot. -/
theorem C10_null_pointer_noops (st : EffectState) (d : Params) :
    audio_effect_set_params none st = st ∧
    audio_effect_get_params st none = none ∧
    audio_effect_get_params (audio_effect_set_params none st) (some d) =
      some st.current_params :=
  ⟨rfl, rfl, rfl⟩

end EFX

/-
Embedding of the extended (Kammerl) beat-repeat variant that appears in
the repository as a second copy of `audio_effect.c` (concatenated into
`audio_out_pwm.h`).  Namespace `KFX`.  The sample-math helpers
(`mix_samples`, `interpolate_sample`, `get_window_envelope`,
`validate_slice_length`, …) are textually identical to the plain variant's;
the `EFX` definitions are reused for them.  The C library `sinf` used by
the scratch pitch mode is not part of the repository; the process function
is parametric in it.
-/

namespace KFX

def NUM_SLICES : ℕ := 2

def MAX_SLICE_SELECT : ℕ := 1

def MIN_LOOP_START : ℚ := 0

def MAX_LOOP_START : ℚ := 1

def MIN_LOOP_SIZE_DECAY : ℚ := 0

def MAX_LOOP_SIZE_DECAY : ℚ := 1

def MIN_SLICE_PROBABILITY : ℚ := 0

def MAX_SLICE_PROBABILITY : ℚ := 1

def PITCH_MODE_FIXED_REVERSE : ℤ := 0

def PITCH_MODE_DECREASING : ℤ := 1

def PITCH_MODE_INCREASING : ℤ := 2

def PITCH_MODE_SCRATCH : ℤ := 3

/-- `beat_repeat_params_t`, extended variant: the plain fields plus the
Kammerl loop/probability/clock/pitch-mode/freeze controls. -/
structure Params where
  slice_length : ℕ
  repeat_count : ℕ
  wet_mix : ℕ
  enabled : Bool
  pitch_shift : ℚ
  reverse : Bool
  stutter_enabled : Bool
  stutter_slice_length : ℕ
  window_shape : ℚ
  loop_start : ℚ
  loop_size_decay : ℚ
  slice_select : ℕ
  slice_probability : ℚ
  clock_divider : ℕ
  pitch_mode : ℤ
  freeze : Bool

def validate_loop_start (loop_start : ℚ) : ℚ :=
  if loop_start < MIN_LOOP_START then MIN_LOOP_START
  else if loop_start > MAX_LOOP_START then MAX_LOOP_START
  else loop_start

def validate_loop_size_decay (decay : ℚ) : ℚ :=
  if decay < MIN_LOOP_SIZE_DECAY then MIN_LOOP_SIZE_DECAY
  else if decay > MAX_LOOP_SIZE_DECAY then MAX_LOOP_SIZE_DECAY
  else decay

def validate_slice_select (select : ℕ) : ℕ :=
  if select > MAX_SLICE_SELECT then MAX_SLICE_SELECT else select

def validate_slice_probability (prob : ℚ) : ℚ :=
  if prob < MIN_SLICE_PROBABILITY then MIN_SLICE_PROBABILITY
  else if prob > MAX_SLICE_PROBABILITY then MAX_SLICE_PROBABILITY
  else prob

/-- `validate_clock_divider`: keep 1, 2, 4 or 8, reset anything else to 1. -/
def validate_clock_divider (divider : ℕ) : ℕ :=
  if divider = 1 ∨ divider = 2 ∨ divider = 4 ∨ divider = 8 then divider else 1

def validate_pitch_mode (mode : ℤ) : ℤ :=
  if PITCH_MODE_FIXED_REVERSE ≤ mode ∧ mode ≤ PITCH_MODE_SCRATCH then mode
  else PITCH_MODE_FIXED_REVERSE

/-- The module state of the extended variant: the plain state plus the
multi-slice buffers, the pitch-modulation phase and the PRNG state of
`check_slice_probability` (a C static local, seeded 12345). -/
structure KState where
  current_params : Params
  slice_buffer : ℕ → ℤ × ℤ
  multi_slice_buffer : ℕ → ℕ → ℤ × ℤ
  multi_slice_lengths : ℕ → ℕ
  current_slice_index : ℕ
  slice_write_pos : ℕ
  slice_read_pos_f : ℚ
  repeat_counter : ℕ
  is_repeating : Bool
  pitch_mod_phase : ℕ
  random_state : ℕ
  is_initialized : Bool

set_option linter.unusedVariables false in
/-- `audio_effect_init`, extended variant (float defaults written as the
rationals they denote). -/
def audio_effect_init (sr : ℕ) : KState :=
  { current_params :=
      { slice_length := 44100 / 4, repeat_count := 4, wet_mix := 70, enabled := true
        pitch_shift := 1, reverse := false, stutter_enabled := false
        stutter_slice_length := 44100 / 100, window_shape := 1 / 20
        loop_start := 0, loop_size_decay := 0, slice_select := 0
        slice_probability := 1, clock_divider := 1
        pitch_mode := PITCH_MODE_FIXED_REVERSE, freeze := false }
    slice_buffer := fun _ => (0, 0)
    multi_slice_buffer := fun _ _ => (0, 0)
    multi_slice_lengths := fun _ => 0
    current_slice_index := 0
    slice_write_pos := 0, slice_read_pos_f := 0, repeat_counter := 0
    is_repeating := false, pitch_mod_phase := 0, random_state := 12345
    is_initialized := true }

/-- `audio_effect_set_params`, extended variant: NULL is a no-op;
otherwise every field is validated independently (the validators shared
with the plain variant are the `EFX` ones, textually identical in the
source). -/
def audio_effect_set_params (params : Option Params) (st : KState) : KState :=
  match params with
  | none => st
  | some p =>
    { st with current_params :=
      { slice_length := EFX.validate_slice_length p.slice_length
        repeat_count := EFX.validate_repeat_count p.repeat_count
        wet_mix := EFX.validate_wet_mix p.wet_mix
        pitch_shift := EFX.validate_pitch_shift p.pitch_shift
        stutter_slice_length := EFX.validate_stutter_length p.stutter_slice_length
        window_shape := EFX.validate_window_shape p.window_shape
        loop_start := validate_loop_start p.loop_start
        loop_size_decay := validate_loop_size_decay p.loop_size_decay
        slice_select := validate_slice_select p.slice_select
        slice_probability := validate_slice_probability p.slice_probability
        clock_divider := validate_clock_divider p.clock_divider
        pitch_mode := validate_pitch_mode p.pitch_mode
        enabled := p.enabled
        reverse := p.reverse
        stutter_enabled := p.stutter_enabled
        freeze := p.freeze } }

/-- `audio_effect_get_params`, extended variant. -/
def audio_effect_get_params (st : KState) (params : Option Params) : Option Params :=
  match params with
  | none => none
  | some _ => some st.current_params

/-- `write_to_slice_buffer`, extended variant. -/
def write_to_slice_buffer (st : KState) (input_l input_r : ℤ) : KState :=
  { st with
    slice_buffer := fun j =>
      if j = st.slice_write_pos then (input_l, input_r) else st.slice_buffer j
    slice_write_pos := st.slice_write_pos + 1 }

/-- `save_slice_to_multi_buffer`: rotate to the next multi-slice slot and
copy the first `slice_length` frames of the capture buffer into it. -/
def save_slice_to_multi_buffer (st : KState) (slice_length : ℕ) : KState :=
  let idx := (st.current_slice_index + 1) % NUM_SLICES
  { st with
    current_slice_index := idx
    multi_slice_buffer := fun i =>
      if i = idx then
        fun pos => if pos < slice_length then st.slice_buffer pos else st.multi_slice_buffer i pos
      else st.multi_slice_buffer i
    multi_slice_lengths := fun i => if i = idx then slice_length else st.multi_slice_lengths i }

/-- `read_from_multi_slice` (the `uint8_t` index arithmetic
`current - slice_idx + NUM_SLICES` never underflows for the validated
`slice_select ≤ 1`). -/
def read_from_multi_slice (st : KState) (slice_idx pos : ℕ) (is_left : Bool) : ℤ :=
  let actual_idx := (st.current_slice_index + NUM_SLICES - slice_idx) % NUM_SLICES
  let slice_len := st.multi_slice_lengths actual_idx
  if slice_len = 0 ∨ slice_len ≤ pos then 0
  else if is_left then (st.multi_slice_buffer actual_idx pos).1
  else (st.multi_slice_buffer actual_idx pos).2

/-- `check_slice_probability`: the linear congruential update
`(rs * 1103515245 + 12345) & 0x7FFFFFFF` over `uint32_t` equals the value
modulo `2^31`. -/
def check_slice_probability (prob : ℚ) (random_state : ℕ) : Bool × ℕ :=
  if prob ≥ 1 then (true, random_state)
  else if prob ≤ 0 then (false, random_state)
  else
    let rs := (random_state * 1103515245 + 12345) % 2147483648
    let random_val : ℚ := ((rs % 1000 : ℕ) : ℚ) / 1000
    (decide (random_val < prob), rs)

/-- `calculate_pitch_for_mode`: the per-mode pitch multiplier (and the
updated modulation phase, advanced only in scratch mode).  `sinf` is the C
library sine, abstracted as a parameter; the float literals `0.5f`,
`0.3f`, `3.14159f` are the rationals they denote. -/
def calculate_pitch_for_mode (p : Params) (pitch_mod_phase : ℕ) (sinf : ℚ → ℚ)
    (pos length : ℕ) : ℚ × ℕ :=
  let normalized_pos : ℚ := (pos : ℚ) / (length : ℚ)
  if p.pitch_mode = PITCH_MODE_DECREASING then
    (1 - normalized_pos * (1 / 2), pitch_mod_phase)
  else if p.pitch_mode = PITCH_MODE_INCREASING then
    (1 / 2 + normalized_pos * (1 / 2), pitch_mod_phase)
  else if p.pitch_mode = PITCH_MODE_SCRATCH then
    let phase := (pitch_mod_phase + 1) % 1000
    (1 + (3 / 10) * sinf (2 * (314159 / 100000) * (phase : ℚ) / 1000), phase)
  else (p.pitch_shift, pitch_mod_phase)

/-- `calculate_loop_range`: loop-start offset into the slice, with the
optional loop-size decay floored at 10 % of the slice. -/
def calculate_loop_range (p : Params) (repeat_counter slice_length : ℕ) : ℕ × ℕ :=
  let loop_start_pos : ℕ := (EFX.ratTrunc ((slice_length : ℚ) * p.loop_start)).toNat
  if p.loop_size_decay > 0 then
    let decay0 : ℚ := 1 - p.loop_size_decay * ((repeat_counter : ℚ) / (p.repeat_count : ℚ))
    let decay_factor : ℚ := if decay0 < 1 / 10 then 1 / 10 else decay0
    let effective_length : ℕ := (EFX.ratTrunc ((slice_length : ℚ) * decay_factor)).toNat
    let loop_end_pos := loop_start_pos + effective_length
    (loop_start_pos, if slice_length < loop_end_pos then slice_length else loop_end_pos)
  else (loop_start_pos, slice_length)

/-- One iteration of the per-frame loop of the extended
`audio_effect_process` (the `uint32_t` subtractions in the reverse read
index are modelled on `ℕ`; they do not wrap for validated parameters). -/
def processFrame (sinf : ℚ → ℚ) (asl : ℕ) (st : KState) (input : ℤ × ℤ) :
    KState × (ℤ × ℤ) :=
  let st1 := write_to_slice_buffer st input.1 input.2
  let st2 :=
    if asl ≤ st1.slice_write_pos then
      let s0 := save_slice_to_multi_buffer { st1 with slice_write_pos := 0 } asl
      if s0.is_repeating = false ∧ s0.current_params.freeze = false then
        let pr := check_slice_probability s0.current_params.slice_probability s0.random_state
        let s1 := { s0 with random_state := pr.2 }
        if pr.1 then
          { s1 with
            is_repeating := true, slice_read_pos_f := 0, repeat_counter := 0
            pitch_mod_phase := 0 }
        else s1
      else s0
    else st1
  if st2.is_repeating = true then
    let p := st2.current_params
    let lr := calculate_loop_range p st2.repeat_counter asl
    let loop_start := lr.1
    let loop_end := lr.2
    let effective_loop_length := loop_end - loop_start
    let adjusted_read_pos0 : ℚ := st2.slice_read_pos_f + (loop_start : ℚ)
    let adjusted_read_pos : ℚ :=
      if (loop_end : ℚ) ≤ adjusted_read_pos0 then (loop_start : ℚ) else adjusted_read_pos0
    let pm := calculate_pitch_for_mode p st2.pitch_mod_phase sinf
      (EFX.ratTrunc st2.slice_read_pos_f).toNat effective_loop_length
    let st3 := { st2 with pitch_mod_phase := pm.2 }
    let read_idx : ℕ :=
      if p.reverse = true then
        loop_end - 1 - (EFX.ratTrunc st3.slice_read_pos_f).toNat % effective_loop_length
      else (EFX.ratTrunc adjusted_read_pos).toNat
    let rep : ℤ × ℤ :=
      if p.slice_select = 0 then
        if read_idx < asl then st3.slice_buffer read_idx else (0, 0)
      else
        (read_from_multi_slice st3 p.slice_select read_idx true,
          read_from_multi_slice st3 p.slice_select read_idx false)
    let windowed : ℤ × ℤ :=
      if p.window_shape > 0 then
        let envelope := EFX.get_window_envelope (EFX.ratTrunc st3.slice_read_pos_f).toNat
          effective_loop_length p.window_shape
        (EFX.toInt16 (EFX.ratTrunc ((rep.1 : ℚ) * envelope)),
          EFX.toInt16 (EFX.ratTrunc ((rep.2 : ℚ) * envelope)))
      else rep
    let output := (EFX.mix_samples input.1 windowed.1 p.wet_mix,
      EFX.mix_samples input.2 windowed.2 p.wet_mix)
    let st4 := { st3 with slice_read_pos_f := st3.slice_read_pos_f + pm.1 }
    let st5 :=
      if p.freeze = false then
        if (effective_loop_length : ℚ) ≤ st4.slice_read_pos_f then
          let s := { st4 with slice_read_pos_f := 0, repeat_counter := st4.repeat_counter + 1 }
          if p.repeat_count ≤ s.repeat_counter then
            { s with is_repeating := false, repeat_counter := 0 }
          else s
        else st4
      else
        if (effective_loop_length : ℚ) ≤ st4.slice_read_pos_f then
          { st4 with slice_read_pos_f := 0 }
        else st4
    (st5, output)
  else (st2, input)

/-- The per-block loop, extended variant. -/
def processLoop (sinf : ℚ → ℚ) (asl : ℕ) :
    KState → List (ℤ × ℤ) → KState × List (ℤ × ℤ)
  | st, [] => (st, [])
  | st, f :: fs =>
    let r := processFrame sinf asl st f
    let rest := processLoop sinf asl r.1 fs
    (rest.1, r.2 :: rest.2)

/-- The extended `audio_effect_process`: the same no-op guards as the
plain variant, then the per-frame loop with the clock-divided slice
length. -/
def audio_effect_process (sinf : ℚ → ℚ) (st : KState) (data : List (ℤ × ℤ))
    (num_channels : ℕ) : KState × List (ℤ × ℤ) :=
  if st.is_initialized = false ∨ num_channels ≠ 2 then (st, data)
  else if st.current_params.enabled = false then (st, data)
  else
    let base :=
      if st.current_params.stutter_enabled then st.current_params.stutter_slice_length
      else st.current_params.slice_length
    let active_slice_length := base / st.current_params.clock_divider
    processLoop sinf active_slice_length st data

end KFX

/-- Decidability of the 16-bit range predicate, for concrete evaluation. -/
instance (x : ℤ) : Decidable (EFX.inRange16 x) :=
  inferInstanceAs (Decidable (EFX.SAMPLE_MIN ≤ x ∧ x ≤ EFX.SAMPLE_MAX))

/-- An input block touching both 16-bit extremes. -/
def c7Input : List (ℤ × ℤ) := [(1000, -1000), (32767, -32768)]

theorem C7_witness :
    (∀ f ∈ c7Input, EFX.inRange16 f.1 ∧ EFX.inRange16 f.2) ∧
    (∀ g ∈ (EFX.audio_effect_process (EFX.audio_effect_init 44100) c7Input 2).2,
      EFX.inRange16 g.1 ∧ EFX.inRange16 g.2) ∧
    (EFX.inRange16 (-32768) ∧ EFX.inRange16 32767 ∧ (0 : ℤ) ≤ 70 ∧ (70 : ℤ) ≤ 100 ∧
      (-(2 ^ 31) ≤ EFX.mix_intermediate (-32768) 32767 70 ∧
        EFX.mix_intermediate (-32768) 32767 70 < 2 ^ 31)) := by
  have hin : ∀ f ∈ c7Input, EFX.inRange16 f.1 ∧ EFX.inRange16 f.2 := by decide
  exact ⟨hin,
    EFX.C7_output_range_and_mix_no_overflow.1 (EFX.audio_effect_init 44100) c7Input 2 hin,
    by decide, by decide, by decide, by decide,
    EFX.C7_output_range_and_mix_no_overflow.2 (-32768) 32767 70 (by decide) (by decide)
      (by decide) (by decide)⟩

/-- C4: `audio_effect_process` — in both variants present in the source —
is a complete no-op (data and state unchanged) whenever the engine is
disabled or the channel count is not 2. -/
theorem C4_bypass_is_noop :
    (∀ (st : EFX.EffectState) (data : List (ℤ × ℤ)) (ch : ℕ),
      st.current_params.enabled = false ∨ ch ≠ 2 →
      EFX.audio_effect_process st data ch = (st, data)) ∧
    (∀ (sinf : ℚ → ℚ) (st : KFX.KState) (data : List (ℤ × ℤ)) (ch : ℕ),
      st.current_params.enabled = false ∨ ch ≠ 2 →
      KFX.audio_effect_process sinf st data ch = (st, data)) := by
  constructor
  · intro st data ch h
    unfold EFX.audio_effect_process
    by_cases g1 : st.is_initialized = false ∨ ch ≠ 2
    · rw [if_pos g1]
    · rw [if_neg g1]
      have henabled : st.current_params.enabled = false := by
        rcases h with h | h
        · exact h
        · exact absurd (Or.inr h) g1
      rw [if_pos henabled]
  · intro sinf st data ch h
    unfold KFX.audio_effect_process
    by_cases g1 : st.is_initialized = false ∨ ch ≠ 2
    · rw [if_pos g1]
    · rw [if_neg g1]
      have henabled : st.current_params.enabled = false := by
        rcases h with h | h
        · exact h
        · exact absurd (Or.inr h) g1
      rw [if_pos henabled]

theorem C4_witness :
    ((EFX.audio_effect_init 44100).current_params.enabled = false ∨ (3 : ℕ) ≠ 2) ∧
    EFX.audio_effect_process (EFX.audio_effect_init 44100) [(5, 6)] 3 =
      (EFX.audio_effect_init 44100, [(5, 6)]) ∧
    KFX.audio_effect_process (fun q => q) (KFX.audio_effect_init 44100) [(5, 6)] 3 =
      (KFX.audio_effect_init 44100, [(5, 6)]) :=
  ⟨Or.inr (by decide),
    C4_bypass_is_noop.1 (EFX.audio_effect_init 44100) [(5, 6)] 3 (Or.inr (by decide)),
    C4_bypass_is_noop.2 (fun q => q) (KFX.audio_effect_init 44100) [(5, 6)] 3
      (Or.inr (by decide))⟩

namespace KFX

/-- The documented valid ranges of C5 for a stored parameter snapshot. -/
def paramsInDocumentedRanges (q : Params) : Prop :=
  128 ≤ q.slice_length ∧ q.slice_length ≤ 44100 ∧
  1 ≤ q.repeat_count ∧ q.repeat_count ≤ 16 ∧
  q.wet_mix ≤ 100 ∧
  1 / 4 ≤ q.pitch_shift ∧ q.pitch_shift ≤ 4 ∧
  0 ≤ q.window_shape ∧ q.window_shape ≤ 1 ∧
  0 ≤ q.loop_start ∧ q.loop_start ≤ 1 ∧
  0 ≤ q.slice_probability ∧ q.slice_probability ≤ 1 ∧
  (q.clock_divider = 1 ∨ q.clock_divider = 2 ∨ q.clock_divider = 4 ∨ q.clock_divider = 8)

/-- C5: for every input parameter struct, `set_params` followed by
`get_params` returns the stored snapshot, every documented-range field of
that snapshot is in range (slice length in `[128, 44100]`, repeat count in
`[1, 16]`, wet mix in `[0, 100]`, pitch shift in `[1/4, 4]`, window shape,
loop start and slice probability in `[0, 1]`, clock divider in
`{1, 2, 4, 8}`), and the invalid clock divider 3 is normalized to 1. -/
theorem C5_set_params_clamps_to_documented_ranges (p d : Params) (st : KState) :
    audio_effect_get_params (audio_effect_set_params (some p) st) (some d) =
      some (audio_effect_set_params (some p) st).current_params ∧
    paramsInDocumentedRanges (audio_effect_set_params (some p) st).current_params ∧
    validate_clock_divider 3 = 1 := by
  refine ⟨rfl, ?_, by decide⟩
  unfold paramsInDocumentedRanges audio_effect_set_params
  dsimp only
  refine ⟨?_, ?_, ?_, ?_, ?_, ?_, ?_, ?_, ?_, ?_, ?_, ?_, ?_, ?_⟩
  · unfold EFX.validate_slice_length EFX.MAX_SLICE_LENGTH EFX.MIN_SLICE_LENGTH
    split_ifs <;> omega
  · unfold EFX.validate_slice_length EFX.MAX_SLICE_LENGTH EFX.MIN_SLICE_LENGTH
    split_ifs <;> omega
  · unfold EFX.validate_repeat_count EFX.MIN_REPEAT_COUNT EFX.MAX_REPEAT_COUNT
    split_ifs <;> omega
  · unfold EFX.validate_repeat_count EFX.MIN_REPEAT_COUNT EFX.MAX_REPEAT_COUNT
    split_ifs <;> omega
  · unfold EFX.validate_wet_mix EFX.MAX_WET_MIX
    split_ifs <;> omega
  · unfold EFX.validate_pitch_shift EFX.MIN_PITCH_SHIFT EFX.MAX_PITCH_SHIFT
    split_ifs with h1 h2 <;>
      first | exact le_of_not_lt h1 | exact le_of_not_lt h2 | norm_num
  · unfold EFX.validate_pitch_shift EFX.MIN_PITCH_SHIFT EFX.MAX_PITCH_SHIFT
    split_ifs with h1 h2 <;>
      first | exact le_of_not_lt h1 | exact le_of_not_lt h2 | norm_num
  · unfold EFX.validate_window_shape EFX.MIN_WINDOW_SHAPE EFX.MAX_WINDOW_SHAPE
    split_ifs with h1 h2 <;>
      first | exact le_of_not_lt h1 | exact le_of_not_lt h2 | norm_num
  · unfold EFX.validate_window_shape EFX.MIN_WINDOW_SHAPE EFX.MAX_WINDOW_SHAPE
    split_ifs with h1 h2 <;>
      first | exact le_of_not_lt h1 | exact le_of_not_lt h2 | norm_num
  · unfold validate_loop_start MIN_LOOP_START MAX_LOOP_START
    split_ifs with h1 h2 <;>
      first | exact le_of_not_lt h1 | exact le_of_not_lt h2 | norm_num
  · unfold validate_loop_start MIN_LOOP_START MAX_LOOP_START
    split_ifs with h1 h2 <;>
      first | exact le_of_not_lt h1 | exact le_of_not_lt h2 | norm_num
  · unfold validate_slice_probability MIN_SLICE_PROBABILITY MAX_SLICE_PROBABILITY
    split_ifs with h1 h2 <;>
      first | exact le_of_not_lt h1 | exact le_of_not_lt h2 | norm_num
  · unfold validate_slice_probability MIN_SLICE_PROBABILITY MAX_SLICE_PROBABILITY
    split_ifs with h1 h2 <;>
      first | exact le_of_not_lt h1 | exact le_of_not_lt h2 | norm_num
  · unfold validate_clock_divider
    split_ifs with h
    · exact h
    · left
      rfl

end KFX
